import Mathlib

/-!
# Shallow embedding of `ps.py` (PowerSchool client)

This file embeds the core of `ps.py` — the credential hashing helpers, the
`Connection` login/fetch state machine, and the `Student` XML-record parser —
as executable Lean definitions, and proves/refutes the specification's claims
about them.

Modelling conventions:

* Python `None`-or-`str` values are `Option String`; ElementTree's
  `element.text` is an `Option String` (an element may have no text).
* Exceptions are an explicit `PyErr` type whose constructors mirror the
  exact Python exception raised (`AttributeError` on `None.text`, `None.find`,
  `None.group`; `TypeError` from `re.match(p, None)`; `ValueError` from
  `float(...)` and `datetime.date(...)`; the plain `Exception` raised by
  `Connection.get_xml`).  An `AttributeError` raised by accessing `.text`,
  `.find` or `.group` on `None` carries no information about which XML path
  was being looked up — exactly as in Python, where the message is always
  "'NoneType' object has no attribute ...".
* The XML document is modelled post-`ET.fromstring` as a tree of elements
  (tag, optional text, children).  The namespace rewrite on line 199 of the
  source turns the long URI into the alias `ao`, so qualified tags appear as
  literal strings like `{ao}CourseTeacher`, as they do in ElementTree after
  that rewrite.  `ET.fromstring` itself is an external library call; parsers
  that consume a raw string take the parsed tree (or a parsing oracle) as a
  parameter.
* `md5` and `hmac` digests are external library calls; the functions that use
  them are parameterised by a digest oracle `String → List Nat` (a list of
  bytes).  The Base64 and hex encodings, which the source applies to those
  digests, are embedded concretely.
* Stateful methods are state-passing functions.  `Student.load` mutates the
  instance field by field, so it returns the (possibly partially updated)
  state *together with* an optional error, making partial mutation before a
  raise observable.  Network downloads are an explicit `download` argument;
  `Connection.get_xml` additionally reports whether the transport was used
  (`true` = a link was followed on this call).
-/

/-- Python 2 byte-wise lexicographic `<=` on strings (character lists);
used by `list.sort(key=...)` in `Student.load`.  For the ASCII date strings
involved this coincides with Python 2 `str` comparison. -/
def charListLe : List Char → List Char → Bool
  | [], _ => true
  | _ :: _, [] => false
  | a :: as, b :: bs =>
    if a.toNat < b.toNat then true
    else if b.toNat < a.toNat then false
    else charListLe as bs

/-- Lexicographic `<=` on whole strings. -/
def strLe (a b : String) : Bool := charListLe a.toList b.toList

/-- Python 2 comparison of an optional string sort key: `None` sorts below
every string (CPython 2 orders `None` before any `str`). -/
def optStrLe : Option String → Option String → Bool
  | none, _ => true
  | some _, none => false
  | some a, some b => strLe a b

/-- Numeric value of a (decimal-digit) character list, most significant
digit first. -/
def natOfDigits (cs : List Char) : Nat :=
  cs.foldl (fun a c => 10 * a + (c.toNat - 48)) 0

/-- The decimal-literal fragment of Python's `float()`: optional sign,
digits with at most one decimal point, at least one digit overall.
(The source only ever feeds score fractions like `"18.5"` to `float`;
exponents/`inf`/`nan`/whitespace are outside this model.)  Returns the exact
rational value on success, `none` where `float()` raises `ValueError`. -/
def pyFloat? (s : String) : Option Rat :=
  let signAndRest : Rat × List Char :=
    match s.toList with
    | '-' :: rest => (-1, rest)
    | '+' :: rest => (1, rest)
    | cs => (1, cs)
  let sign := signAndRest.1
  let cs := signAndRest.2
  let intPart := cs.takeWhile Char.isDigit
  let rest := cs.dropWhile Char.isDigit
  match rest with
  | [] =>
    if intPart.isEmpty then none
    else some (sign * (natOfDigits intPart : Rat))
  | '.' :: frac =>
    if frac.all Char.isDigit && !(intPart.isEmpty && frac.isEmpty) then
      some (sign * ((natOfDigits intPart : Rat) +
        (natOfDigits frac : Rat) / ((10 : Rat) ^ frac.length)))
    else none
  | _ => none

/-- Semantics of the greedy regex `re.match(r'(.*)/(.*)', s)` used on the
combined grade text: the first `(.*)` is greedy, so the string is split at
the LAST `'/'`.  Returns `none` when the string has no `'/'` (where the
regex fails to match and the subsequent `.group` raises). -/
def splitLastSlash : List Char → Option (List Char × List Char)
  | [] => none
  | c :: rest =>
    match splitLastSlash rest with
    | some (a, b) => some (c :: a, b)
    | none => if c = '/' then some ([], rest) else none

/-- String-level wrapper for `splitLastSlash`: the two capture groups of
`re.match(r'(.*)/(.*)', s)`. -/
def matchGrade (s : String) : Option (String × String) :=
  match splitLastSlash s.toList with
  | none => none
  | some (a, b) => some (String.mk a, String.mk b)

/-- Semantics of `re.match(r'(\d+)/(\d+)/(\d+)', s)` used by
`Student.filter_courses`: three nonempty runs of decimal digits separated by
slashes, anchored at the start only (trailing text is ignored, as `re.match`
does not anchor the end). -/
def parseMDY (s : String) : Option (Nat × Nat × Nat) :=
  let cs := s.toList
  let d1 := cs.takeWhile Char.isDigit
  let r1 := cs.dropWhile Char.isDigit
  if d1.isEmpty then none else
  match r1 with
  | '/' :: r2 =>
    let d2 := r2.takeWhile Char.isDigit
    let r3 := r2.dropWhile Char.isDigit
    if d2.isEmpty then none else
    match r3 with
    | '/' :: r4 =>
      let d3 := r4.takeWhile Char.isDigit
      if d3.isEmpty then none
      else some (natOfDigits d1, natOfDigits d2, natOfDigits d3)
    | _ => none
  | _ => none

/-- A Python `datetime.date` value (year, month, day). -/
structure PDate where
  year : Nat
  month : Nat
  day : Nat
deriving DecidableEq

/-- Comparison of `datetime.date` values: lexicographic on (year, month, day). -/
def PDate.le (a b : PDate) : Bool :=
  a.year < b.year ||
    (a.year == b.year &&
      (a.month < b.month || (a.month == b.month && a.day ≤ b.day)))

/-- Gregorian leap-year test, as `datetime` uses. -/
def isLeap (y : Nat) : Bool :=
  (y % 4 == 0 && y % 100 != 0) || y % 400 == 0

/-- Days in a month, as `datetime` uses. -/
def daysInMonth (y m : Nat) : Nat :=
  if m = 2 then (if isLeap y then 29 else 28)
  else if m = 4 ∨ m = 6 ∨ m = 9 ∨ m = 11 then 30
  else 31

/-- Condition under which `datetime.date(year, month, day)` does not raise:
it raises `ValueError` unless this holds
(`MINYEAR = 1`, `MAXYEAR = 9999`). -/
def validDate (y m d : Nat) : Bool :=
  1 ≤ y && y ≤ 9999 && 1 ≤ m && m ≤ 12 && 1 ≤ d && d ≤ daysInMonth y m

/-- The exceptions the embedded code can raise, one constructor per distinct
Python exception.  The three `AttributeError`s and the `TypeError` carry no
payload because the Python exceptions carry none that depends on the XML
path being looked up. -/
inductive PyErr where
  /-- Python `AttributeError: 'NoneType' object has no attribute 'text'` -/
  | attrText
  /-- Python `AttributeError: 'NoneType' object has no attribute 'find'` -/
  | attrFind
  /-- Python `AttributeError: 'NoneType' object has no attribute 'group'` -/
  | attrGroup
  /-- Python `TypeError` from `re.match(pattern, None)` -/
  | typeMatch
  /-- Python `ValueError: could not convert string to float: s` -/
  | valueFloat (s : String)
  /-- Python `ValueError` from `datetime.date(...)` on an out-of-range date -/
  | valueDate
  /-- Python plain `Exception(msg)` raised by `Connection.get_xml` -/
  | notLoggedIn (msg : String)
deriving DecidableEq

/-- An ElementTree element after parsing: tag, optional text, children. -/
inductive Xml where
  | elem (tag : String) (text : Option String) (children : List Xml)

/-- Element tag. -/
def Xml.tag : Xml → String
  | .elem t _ _ => t

/-- Element text (`None` when the element has no text node). -/
def Xml.text : Xml → Option String
  | .elem _ x _ => x

/-- Child elements, in document order. -/
def Xml.children : Xml → List Xml
  | .elem _ _ c => c

/-- Path tokenisation: an ElementTree path string such as
`Person/Name/FirstName` is split at every `'/'` into its tag components
(character-level model of splitting on the separator `/`). -/
def splitPathAux : List Char → List Char → List String
  | acc, [] => [String.mk acc.reverse]
  | acc, c :: rest =>
    if c = '/' then String.mk acc.reverse :: splitPathAux [] rest
    else splitPathAux (c :: acc) rest

/-- Slash-separated components of a path string. -/
def splitPath (s : String) : List String := splitPathAux [] s.toList

/-- ElementTree path selection: starting from `[x]`, each path token
selects, in document order, the children of the current elements that carry
that tag.  This is the semantics of `ElementPath` for slash-separated tag
paths. -/
def Xml.selectPath (x : Xml) (ps : List String) : List Xml :=
  ps.foldl (fun acc t => acc.flatMap (fun e => e.children.filter (fun c => c.tag = t))) [x]

/-- Model of `element.findall(path)` for a slash-separated tag path. -/
def Xml.findall (x : Xml) (path : String) : List Xml :=
  x.selectPath (splitPath path)

/-- Model of `element.find(path)`: first match in document order, `none` if there is
none. -/
def Xml.find (x : Xml) (path : String) : Option Xml :=
  (x.findall path).head?

/-- Model of `element.find(path).text`: raises `AttributeError` when `find` returned
`None`, otherwise yields the (optional) text. -/
def Xml.findText (x : Xml) (path : String) : Except PyErr (Option String) :=
  match x.find path with
  | none => .error .attrText
  | some e => .ok e.text

/-- An assignment record (`tmp_assn` in `Student.load`): only materialized
for non-placeholder grades, with both halves of the score fraction parsed
as floats. -/
structure Assn where
  name : Option String
  category : Option String
  due_date : Option String
  score : Rat
  out_of : Rat
deriving DecidableEq

/-- A course record (`tmp_crs` in `Student.load`). -/
structure Course where
  name : Option String
  teacher : Option String
  letter_grade : Option String
  number_grade : Option String
  in_progress : Bool
  assignments : List Assn
  categories : List (Option String)
deriving DecidableEq

/-- The `Student` object's state: the fields set in `Student.__init__` and
mutated by `Student.load` / `Student.filter_courses`. -/
structure Student where
  first_name : Option String
  last_name : Option String
  gender : Option String
  gpa : Option String
  courses : List Course
  loaded : Bool
deriving DecidableEq

/-- Field values set by `Student.__init__` before any load: empty strings, no
courses, not loaded. -/
def Student.new : Student :=
  { first_name := some "", last_name := some "", gender := some "",
    gpa := some "", courses := [], loaded := false }

/-- Sort key comparison used on `tmp_crs['assignments']`:
`key=lambda c: c['due_date']` under Python 2 ordering. -/
def dueLe (a b : Assn) : Bool := optStrLe a.due_date b.due_date

/-- Stable insertion of an assignment into an already-sorted list: the new
element goes after every element whose key is `<=` its own, as a stable
sort (Python's `list.sort`) places it. -/
def insertSorted (a : Assn) : List Assn → List Assn
  | [] => [a]
  | b :: bs => if dueLe b a then b :: insertSorted a bs else a :: b :: bs

/-- Stable ascending sort by due-date text, the behaviour of
`tmp_crs['assignments'].sort(key=lambda c: c['due_date'])` (Python's sort is
stable and ascending; a stable sort is extensionally unique, so insertion
sort reproduces it exactly). -/
def sortAssns (l : List Assn) : List Assn :=
  l.foldl (fun acc a => insertSorted a acc) []

/-- The assignment loop of `Student.load` (lines 226–244): for each
`{ao}Assignment` element, read name and category, record the category if
unseen (NOTE: this happens before the placeholder check), read the due date
and the combined grade text, split it at the last slash, skip the element if
the score portion is the literal `--`, otherwise parse both halves as floats
and append the assignment.  `cats`/`asns` accumulate
`tmp_crs['categories']` / `tmp_crs['assignments']` in order. -/
def Student.loadAssns :
    List (Option String) → List Assn → List Xml →
    Except PyErr (List (Option String) × List Assn)
  | cats, asns, [] => .ok (cats, asns)
  | cats, asns, assn :: rest =>
    match assn.findText "{ao}Name" with
    | .error e => .error e
    | .ok nm =>
    match assn.findText "{ao}Category" with
    | .error e => .error e
    | .ok cat =>
    let cats := if cat ∈ cats then cats else cats ++ [cat]
    match assn.findText "{ao}DueDate" with
    | .error e => .error e
    | .ok due =>
    match assn.findText "{ao}Grade" with
    | .error e => .error e
    | .ok gtext =>
    match gtext with
    | none => .error .typeMatch
    | some g =>
    match matchGrade g with
    | none => .error .attrGroup
    | some (g1, g2) =>
    if g1 = "--" then
      Student.loadAssns cats asns rest
    else
      match pyFloat? g1 with
      | none => .error (.valueFloat g1)
      | some sc =>
      match pyFloat? g2 with
      | none => .error (.valueFloat g2)
      | some oo =>
      Student.loadAssns cats
        (asns ++ [{ name := nm, category := cat, due_date := due,
                    score := sc, out_of := oo }]) rest

/-- The per-course body of `Student.load` (lines 211–248): resolve the
vendor-extension subtree, read title/teacher/grades, run the assignment
loop, then sort the assignments by due-date text and build the course.
An error anywhere discards the local `tmp_crs`. -/
def Student.loadCourse (course : Xml) : Except PyErr Course :=
  match course.find "UserDefinedExtensions" with
  | none => .error .attrFind
  | some ude =>
  match course.findText "CourseTitle" with
  | .error e => .error e
  | .ok nm =>
  match ude.find "{ao}CourseExtensions" with
  | none => .error .attrFind
  | some ext =>
  match ext.findText "{ao}CourseTeacher" with
  | .error e => .error e
  | .ok teacher =>
  match ext.findText "{ao}CourseGrade/{ao}CurrentGradeLetter" with
  | .error e => .error e
  | .ok lg =>
  match ext.findText "{ao}CourseGrade/{ao}CurrentGradeNumeric" with
  | .error e => .error e
  | .ok ng =>
  match Student.loadAssns [] [] (ext.findall "{ao}Assignments/{ao}Assignment") with
  | .error e => .error e
  | .ok (cats, asns) =>
  .ok { name := nm, teacher := teacher, letter_grade := lg, number_grade := ng,
        in_progress := false,
        assignments := sortAssns asns,
        categories := cats }

/-- The course loop of `Student.load`: append each successfully parsed
course to `self.courses`; an error aborts the loop, keeping the courses
appended so far. -/
def Student.loadCourses (st : Student) : List Xml → Student × Option PyErr
  | [] => (st, none)
  | c :: rest =>
    match Student.loadCourse c with
    | .error e => (st, some e)
    | .ok crs => Student.loadCourses { st with courses := st.courses ++ [crs] } rest

/-- Model of `Student.load` (lines 194–249), on the parsed document tree: mutates the
instance field by field; returns the state reached together with the raised
exception, if any.  `self.loaded = True` only on full success. -/
def Student.load (st : Student) (root : Xml) : Student × Option PyErr :=
  match root.find "Student" with
  | none => (st, some .attrFind)
  | some stu =>
  match stu.findText "Person/Name/FirstName" with
  | .error e => (st, some e)
  | .ok fn =>
  match stu.findText "Person/Name/LastName" with
  | .error e => ({ st with first_name := fn }, some e)
  | .ok ln =>
  match stu.findText "Person/Gender/GenderCode" with
  | .error e => ({ st with first_name := fn, last_name := ln }, some e)
  | .ok gd =>
  match stu.find "AcademicRecord" with
  | none => ({ st with first_name := fn, last_name := ln, gender := gd }, some .attrFind)
  | some ar =>
  match ar.findText "GPA/GradePointAverage" with
  | .error e => ({ st with first_name := fn, last_name := ln, gender := gd }, some e)
  | .ok gp =>
  match Student.loadCourses
      { st with first_name := fn, last_name := ln, gender := gd, gpa := gp }
      (ar.findall "Course") with
  | (st5, some e) => (st5, some e)
  | (st5, none) => ({ st5 with loaded := true }, none)

/-- Model of the constructor call `Student(loadstring)`: construct a fresh student and load it. -/
def Student.ofXml (root : Xml) : Student × Option PyErr :=
  Student.load Student.new root

/-- The inner for-loop of `Student.filter_courses` with its `for`/`else`:
scan the assignments in stored order; the first one whose due date parses
and falls in `[cutoff, today]` breaks with `true`; falling off the end
yields `false`.  A due date that is `None`, fails the regex, or is an
invalid calendar date raises (`TypeError` / `AttributeError` on `.group` /
`ValueError` respectively). -/
def Student.assnInProgress (cutoff today : PDate) : List Assn → Except PyErr Bool
  | [] => .ok false
  | a :: rest =>
    match a.due_date with
    | none => .error .typeMatch
    | some s =>
    match parseMDY s with
    | none => .error .attrGroup
    | some (m, d, y) =>
    if validDate y m d then
      if PDate.le cutoff ⟨y, m, d⟩ && PDate.le ⟨y, m, d⟩ today then .ok true
      else Student.assnInProgress cutoff today rest
    else .error .valueDate

/-- The course loop of `Student.filter_courses`: set each course's
`in_progress` from the scan of its assignments. -/
def Student.filterCoursesList (cutoff today : PDate) : List Course → Except PyErr (List Course)
  | [] => .ok []
  | c :: rest =>
    match Student.assnInProgress cutoff today c.assignments with
    | .error e => .error e
    | .ok b =>
      match Student.filterCoursesList cutoff today rest with
      | .error e => .error e
      | .ok cs => .ok ({ c with in_progress := b } :: cs)

/-- Model of `Student.filter_courses(cutoff_date)` (lines 251–266).  `today` stands
for `datetime.date.today()`, an input of the computation. -/
def Student.filter_courses (st : Student) (cutoff today : PDate) : Except PyErr Student :=
  match Student.filterCoursesList cutoff today st.courses with
  | .error e => .error e
  | .ok cs => .ok { st with courses := cs }

/-- The `Connection` object's state (fields set in `Connection.__init__`).
The mechanize browser itself is external; downloads appear as explicit
arguments to the methods that perform them. -/
structure Connection where
  logged_in : Bool
  error : String
  xml_data : Option String
  student : Option Student
  page : Option String
deriving DecidableEq

/-- State set up by `Connection.__init__`. -/
def Connection.new : Connection :=
  { logged_in := false, error := "", xml_data := none, student := none, page := none }

/-- Model of `Connection.get_xml` (lines 90–106).  `download` is the text the
transport would return if the `studentdata.xml` link were followed on this
call.  Returns the XML text, the new state, and whether the transport was
actually used.  NOTE the cache check is Python truthiness
(`if not self.xml_data`), so both `None` and a cached empty string trigger
a (re-)download. -/
def Connection.get_xml (conn : Connection) (download : String) :
    Except PyErr (String × Connection × Bool) :=
  if conn.logged_in = false then
    .error (.notLoggedIn "Not logged in. Cannot download.")
  else
    match conn.xml_data with
    | none => .ok (download, { conn with xml_data := some download }, true)
    | some s =>
      if s = "" then .ok (download, { conn with xml_data := some download }, true)
      else .ok (s, conn, false)

/-- Model of `Connection.get_student` (lines 108–113): `Student(self.get_xml())`.
`fromstring` is the external `ET.fromstring` oracle turning the downloaded
text into a parsed tree (or a parse error). -/
def Connection.get_student (conn : Connection) (download : String)
    (fromstring : String → Except PyErr Xml) :
    Except PyErr (Student × Connection) :=
  match Connection.get_xml conn download with
  | .error e => .error e
  | .ok (xmlText, conn2, _) =>
    match fromstring xmlText with
    | .error e => .error e
    | .ok root =>
      match Student.ofXml root with
      | (_, some e) => .error e
      | (st, none) => .ok (st, { conn2 with student := some st })

/-- The standard Base64 alphabet. -/
def b64Alphabet : List Char :=
  "ABCDEFGHIJKLMNOPQRSTUVWXYZabcdefghijklmnopqrstuvwxyz0123456789+/".toList

/-- Base64 digit character for a 6-bit value. -/
def b64char (n : Nat) : Char := b64Alphabet.getD n 'A'

/-- Model of `base64.b64encode` on a byte list: three bytes become four digits; a
final single byte or byte pair is padded with `==` / `=`. -/
def b64encodeBytes : List Nat → List Char
  | [] => []
  | [a] => [b64char (a / 4), b64char (a % 4 * 16), '=', '=']
  | [a, b] => [b64char (a / 4), b64char (a % 4 * 16 + b / 16), b64char (b % 16 * 4), '=']
  | a :: b :: c :: rest =>
    b64char (a / 4) :: b64char (a % 4 * 16 + b / 16) ::
      b64char (b % 16 * 4 + c / 64) :: b64char (c % 64) :: b64encodeBytes rest

/-- Model of `Connection.b64_md5` (lines 119–122): Base64-encode the MD5 digest of
the password and cut off the final two characters (`[:-2]`).  `md5f` is the
external `md5.new(...).digest()` oracle, returning the digest as bytes. -/
def Connection.b64_md5 (md5f : String → List Nat) (code : String) : String :=
  String.mk ((b64encodeBytes (md5f code)).dropLast.dropLast)

/-- The lowercase hex alphabet. -/
def hexAlphabet : List Char := "0123456789abcdef".toList

/-- Lowercase hex digit character for a 4-bit value. -/
def hexChar (n : Nat) : Char := hexAlphabet.getD n '0'

/-- Model of `.hexdigest()` on a byte list: two lowercase hex digits per byte. -/
def hexOfBytes (bs : List Nat) : List Char :=
  bs.flatMap (fun b => [hexChar (b / 16), hexChar (b % 16)])

/-- Model of `Connection.hex_hmac_md5` (lines 124–127): lowercase hex digest of
HMAC-MD5.  `hmacf` is the external `hmac.new(key, code)` digest oracle,
returning the 16 raw digest bytes. -/
def Connection.hex_hmac_md5 (hmacf : String → String → List Nat) (key code : String) : String :=
  String.mk (hexOfBytes (hmacf key code))

/-- The form fields populated by `Connection.login` (lines 62–75) before
submission: `account`, `pw`, `dbpw`, and — only when the form exposes it —
`ldappassword` holding the unmodified password. -/
structure LoginForm where
  account : String
  pw : String
  dbpw : String
  ldappassword : Option String
deriving DecidableEq

/-- The field-population step of `Connection.login`: given the context token
(`pskey`, read from the form's `contextData` field), compute the two derived
values exactly as the source does. -/
def Connection.loginFields (md5f : String → List Nat)
    (hmacf : String → String → List Nat)
    (pskey username password : String) (hasLdap : Bool) : LoginForm :=
  { account := username,
    pw := Connection.hex_hmac_md5 hmacf pskey (Connection.b64_md5 md5f password),
    dbpw := Connection.hex_hmac_md5 hmacf pskey password.toLower,
    ldappassword := if hasLdap then some password else none }

/-- A concrete `{ao}Assignment` element with the four leaf fields the parser
reads. -/
def assnElem (nm cat due grade : String) : Xml :=
  .elem "{ao}Assignment" none [
    .elem "{ao}Name" (some nm) [],
    .elem "{ao}Category" (some cat) [],
    .elem "{ao}DueDate" (some due) [],
    .elem "{ao}Grade" (some grade) []]

/-- A concrete `Course` element with its vendor-extension subtree. -/
def courseElem (title teacher lg ng : String) (assns : List Xml) : Xml :=
  .elem "Course" none [
    .elem "CourseTitle" (some title) [],
    .elem "UserDefinedExtensions" none [
      .elem "{ao}CourseExtensions" none [
        .elem "{ao}CourseTeacher" (some teacher) [],
        .elem "{ao}CourseGrade" none [
          .elem "{ao}CurrentGradeLetter" (some lg) [],
          .elem "{ao}CurrentGradeNumeric" (some ng) []],
        .elem "{ao}Assignments" none assns]]]

/-- A concrete well-formed record document with the given `Course`
elements under `Student/AcademicRecord`. -/
def recordDoc (courses : List Xml) : Xml :=
  .elem "root" none [
    .elem "Student" none [
      .elem "Person" none [
        .elem "Name" none [
          .elem "FirstName" (some "Johnny") [],
          .elem "LastName" (some "Doe") []],
        .elem "Gender" none [
          .elem "GenderCode" (some "Male") []]],
      .elem "AcademicRecord" none
        (Xml.elem "GPA" none [.elem "GradePointAverage" (some "2.5") []] :: courses)]]

/-- One course whose only assignment carries a grade text whose score
portion is the placeholder `--` (out of 20). -/
def docPlaceholder : Xml :=
  recordDoc [courseElem "Algebra" "Smith, A" "B" "85"
    [assnElem "HW1" "Homework" "1/15/2024" "--/20"]]

/-- A concrete `Person` subtree with all three person fields present. -/
def personJohnny : Xml :=
  .elem "Person" none [
    .elem "Name" none [
      .elem "FirstName" (some "Johnny") [],
      .elem "LastName" (some "Doe") []],
    .elem "Gender" none [
      .elem "GenderCode" (some "Male") []]]

/-- An `AcademicRecord` subtree with no `GPA` element. -/
def arNoGPA : Xml := .elem "AcademicRecord" none []

/-- A `Student` subtree whose `GPA/GradePointAverage` is absent. -/
def stuNoGPA : Xml := .elem "Student" none [personJohnny, arNoGPA]

/-- A record document whose `GPA/GradePointAverage` element is absent. -/
def docMissingGPA : Xml := .elem "root" none [stuNoGPA]

/-- A record document whose `Person/Name/FirstName` element is absent. -/
def docMissingFirstName : Xml :=
  .elem "root" none [
    .elem "Student" none [
      .elem "Person" none [
        .elem "Name" none [
          .elem "LastName" (some "Doe") []],
        .elem "Gender" none [
          .elem "GenderCode" (some "Male") []]],
      .elem "AcademicRecord" none [
        .elem "GPA" none [.elem "GradePointAverage" (some "2.5") []]]]]

/-- One course with three dated assignments whose due dates exercise the
lexicographic (non-chronological) sort. -/
def docDates : Xml :=
  recordDoc [courseElem "History" "Jones, B" "A" "95"
    [assnElem "Essay" "Essays" "9/1/2023" "18/20",
     assnElem "Quiz" "Quizzes" "10/15/2023" "9/10",
     assnElem "Final" "Tests" "2/3/2024" "88/100"]]

/-- Predicate: this assignment's due date parses under the `M/D/Y` regex and
falls in the inclusive window `[cutoff, today]` under `datetime.date`
comparison.  This is what one iteration of the `Student.filter_courses`
loop tests. -/
def assnInRange (cutoff today : PDate) (a : Assn) : Prop :=
  ∃ s m d y, a.due_date = some s ∧ parseMDY s = some (m, d, y) ∧
    (PDate.le cutoff ⟨y, m, d⟩ && PDate.le ⟨y, m, d⟩ today) = true

/-- The course value that parsing `docPlaceholder` produces: the placeholder
assignment was dropped from the assignment list, yet its category was
recorded. -/
def placeholderCourse : Course :=
  { name := some "Algebra", teacher := some "Smith, A",
    letter_grade := some "B", number_grade := some "85",
    in_progress := false, assignments := [], categories := [some "Homework"] }

/-- A concrete graded assignment with the given due date. -/
def sampleAssn (due : String) : Assn :=
  { name := some "A1", category := some "HW", due_date := some due,
    score := 18, out_of := 20 }

/-- A concrete course with the given assignments. -/
def sampleCourse (nm : String) (asns : List Assn) : Course :=
  { name := some nm, teacher := some "T", letter_grade := some "A",
    number_grade := some "90", in_progress := false,
    assignments := asns, categories := [some "HW"] }

/-- The spec's §8 example model: one course with an assignment due
`1/15/2024`, one whose only assignment is due `12/1/2023`, and one with no
assignments. -/
def sampleStudent : Student :=
  { Student.new with courses :=
      [sampleCourse "C1" [sampleAssn "1/15/2024"],
       sampleCourse "C2" [sampleAssn "12/1/2023"],
       sampleCourse "C3" []] }

/-- The state `sampleStudent` reaches after
`filter_courses(date(2024,1,1))` on `today = date(2024,3,1)`. -/
def sampleStudentFiltered : Student :=
  { Student.new with courses :=
      [{ sampleCourse "C1" [sampleAssn "1/15/2024"] with in_progress := true },
       sampleCourse "C2" [sampleAssn "12/1/2023"],
       sampleCourse "C3" []] }

/-- Helper: a list with no `'/'` admits no split. -/
theorem splitLastSlash_eq_none : ∀ {l : List Char}, '/' ∉ l → splitLastSlash l = none := by
  intro l h
  induction l with
  | nil => rfl
  | cons c rest ih =>
    have hc : ¬(c = '/') := fun hcc => h (hcc ▸ List.mem_cons_self c rest)
    have hr : '/' ∉ rest := fun hm => h (List.mem_cons_of_mem _ hm)
    simp [splitLastSlash, ih hr, hc]

/-- C10: the combined grade text is split at the LAST `'/'` — for
`s = a ++ "/" ++ b` with no slash in `b`, the score group is all of `a`
(everything before the final slash) and the out-of group is `b`; e.g. for
the two-slash text `1/2/3` the score portion is `1/2`.  The `--` comparison
in `Student.loadAssns` is made against exactly that first group. -/
theorem claim10_last_slash (a b : List Char) (h : '/' ∉ b) :
    splitLastSlash (a ++ '/' :: b) = some (a, b) ∧
    matchGrade (String.mk (a ++ '/' :: b)) = some (String.mk a, String.mk b) ∧
    matchGrade (String.mk ['1', '/', '2', '/', '3']) =
      some (String.mk ['1', '/', '2'], String.mk ['3']) := by
  have key : splitLastSlash (a ++ '/' :: b) = some (a, b) := by
    induction a with
    | nil => simp [splitLastSlash, splitLastSlash_eq_none h]
    | cons x xs ih => simp [splitLastSlash, ih]
  refine ⟨key, ?_, by decide⟩
  show (match splitLastSlash (a ++ '/' :: b) with
        | none => none
        | some (p, q) => some (String.mk p, String.mk q)) =
    some (String.mk a, String.mk b)
  rw [key]

/-- Witness for C10 at the concrete grade text `18/20`. -/
theorem claim10_last_slash_witness :
    splitLastSlash (['1', '8'] ++ '/' :: ['2', '0']) = some (['1', '8'], ['2', '0']) ∧
    matchGrade (String.mk (['1', '8'] ++ '/' :: ['2', '0'])) =
      some (String.mk ['1', '8'], String.mk ['2', '0']) ∧
    matchGrade (String.mk ['1', '/', '2', '/', '3']) =
      some (String.mk ['1', '/', '2'], String.mk ['3']) :=
  claim10_last_slash ['1', '8'] ['2', '0'] (by decide)

/-- Helper: dropping the final two characters of `q ++ [u, v]` yields `q`. -/
theorem dropLast_pair (q : List Char) (u v : Char) :
    (q ++ [u, v]).dropLast.dropLast = q := by
  have h : q ++ [u, v] = (q ++ [u]) ++ [v] := by simp
  rw [h, List.dropLast_concat, List.dropLast_concat]

/-- Helper: a byte list of length `3k + 1` (such as a 16-byte MD5 digest)
Base64-encodes to a character list ending in two `'='` padding characters,
and removing those two characters is exactly `dropLast.dropLast`. -/
theorem b64encodeBytes_pad :
    ∀ (n : Nat) (l : List Nat), l.length ≤ n → l.length % 3 = 1 →
      b64encodeBytes l = (b64encodeBytes l).dropLast.dropLast ++ ['=', '='] := by
  intro n
  induction n with
  | zero =>
    intro l hl hm
    have h0 : l.length = 0 := Nat.le_zero.mp hl
    omega
  | succ n ih =>
    intro l hl hm
    rcases l with _ | ⟨a, _ | ⟨b, _ | ⟨c, rest⟩⟩⟩
    · simp at hm
    · rfl
    · simp at hm
    · have hr : rest.length % 3 = 1 := by
        simp only [List.length_cons] at hm
        omega
      have hlen : rest.length ≤ n := by
        simp only [List.length_cons] at hl
        omega
      have ihr := ih rest hlen hr
      have hunf : b64encodeBytes (a :: b :: c :: rest)
          = b64char (a / 4) :: b64char (a % 4 * 16 + b / 16) ::
            b64char (b % 16 * 4 + c / 64) :: b64char (c % 64) :: b64encodeBytes rest := rfl
      rw [hunf, ihr, ← List.cons_append, ← List.cons_append, ← List.cons_append,
        ← List.cons_append, dropLast_pair]

/-- C7: for any 16-byte MD5 digest, `Connection.b64_md5` equals the Base64
encoding of the digest with the two trailing `'='` padding characters
stripped, and is therefore always exactly two characters shorter than the
un-stripped encoding.  Determinism is definitional (the embedding is a pure
function of the digest oracle and the password). -/
theorem claim7_b64_md5 (md5f : String → List Nat) (code : String)
    (h : (md5f code).length = 16) :
    b64encodeBytes (md5f code) =
      (Connection.b64_md5 md5f code).toList ++ ['=', '='] ∧
    (Connection.b64_md5 md5f code).length + 2 =
      (b64encodeBytes (md5f code)).length := by
  have hm : (md5f code).length % 3 = 1 := by rw [h]
  have hp := b64encodeBytes_pad (md5f code).length (md5f code) (Nat.le_refl _) hm
  constructor
  · exact hp
  · conv_rhs => rw [hp]
    show ((b64encodeBytes (md5f code)).dropLast.dropLast).length + 2 = _
    simp

/-- Witness for C7 with a constant all-zero 16-byte digest oracle. -/
theorem claim7_b64_md5_witness :
    b64encodeBytes ((fun _ : String => List.replicate 16 (0 : Nat)) "hunter2") =
      (Connection.b64_md5 (fun _ : String => List.replicate 16 (0 : Nat)) "hunter2").toList
        ++ ['=', '='] ∧
    (Connection.b64_md5 (fun _ : String => List.replicate 16 (0 : Nat)) "hunter2").length + 2 =
      (b64encodeBytes ((fun _ : String => List.replicate 16 (0 : Nat)) "hunter2")).length :=
  claim7_b64_md5 (fun _ => List.replicate 16 0) "hunter2" (by decide)

/-- Helper: the hex digest has two characters per byte. -/
theorem hexOfBytes_length (bs : List Nat) : (hexOfBytes bs).length = 2 * bs.length := by
  induction bs with
  | nil => rfl
  | cons b rest ih =>
    simp only [hexOfBytes, List.flatMap_cons] at ih ⊢
    simp only [List.length_append, List.length_cons, List.length_nil, List.length_cons] at *
    omega

/-- Helper: every 4-bit value maps into the lowercase hex alphabet. -/
theorem hexChar_mem (n : Nat) (h : n < 16) : hexChar n ∈ hexAlphabet := by
  interval_cases n <;> decide

/-- Helper: the hex digest of a byte list uses only lowercase hex digits. -/
theorem hexOfBytes_mem (bs : List Nat) (hb : ∀ b ∈ bs, b < 256) :
    ∀ c ∈ hexOfBytes bs, c ∈ hexAlphabet := by
  induction bs with
  | nil => intro c hc; simp [hexOfBytes] at hc
  | cons b rest ih =>
    intro c hc
    simp only [hexOfBytes, List.flatMap_cons] at hc
    rcases List.mem_append.mp hc with hm | hm
    · have hb256 : b < 256 := hb b (List.mem_cons_self b rest)
      simp only [List.mem_cons, List.not_mem_nil, or_false] at hm
      rcases hm with rfl | rfl
      · exact hexChar_mem _ (by omega)
      · exact hexChar_mem _ (by omega)
    · exact ih (fun x hx => hb x (List.mem_cons_of_mem _ hx)) c hm

/-- C8: the login step fills field `pw` with
`HMAC-MD5(contextToken, b64_md5(password))` and field `dbpw` with
`HMAC-MD5(contextToken, password.lower())`, and each such hex digest (for a
16-byte HMAC digest of bytes) is a 32-character string over the lowercase
hex alphabet.  Determinism is definitional. -/
theorem claim8_login_fields (md5f : String → List Nat)
    (hmacf : String → String → List Nat) (pskey username password : String)
    (hasLdap : Bool)
    (hlen : ∀ k c, (hmacf k c).length = 16)
    (hbyte : ∀ k c, ∀ b ∈ hmacf k c, b < 256) :
    (Connection.loginFields md5f hmacf pskey username password hasLdap).pw =
      Connection.hex_hmac_md5 hmacf pskey (Connection.b64_md5 md5f password) ∧
    (Connection.loginFields md5f hmacf pskey username password hasLdap).dbpw =
      Connection.hex_hmac_md5 hmacf pskey password.toLower ∧
    (∀ k c, (Connection.hex_hmac_md5 hmacf k c).length = 32 ∧
      ∀ ch ∈ (Connection.hex_hmac_md5 hmacf k c).toList, ch ∈ hexAlphabet) := by
  refine ⟨rfl, rfl, ?_⟩
  intro k c
  constructor
  · show (hexOfBytes (hmacf k c)).length = 32
    rw [hexOfBytes_length, hlen]
  · intro ch hch
    exact hexOfBytes_mem _ (hbyte k c) ch hch

/-- Witness for C8 with a constant all-zero 16-byte digest oracle. -/
theorem claim8_login_fields_witness :
    (Connection.loginFields (fun _ => List.replicate 16 0)
        (fun _ _ => List.replicate 16 0) "ctx" "1234" "Pass" true).pw =
      Connection.hex_hmac_md5 (fun _ _ => List.replicate 16 0) "ctx"
        (Connection.b64_md5 (fun _ => List.replicate 16 0) "Pass") ∧
    (Connection.loginFields (fun _ => List.replicate 16 0)
        (fun _ _ => List.replicate 16 0) "ctx" "1234" "Pass" true).dbpw =
      Connection.hex_hmac_md5 (fun _ _ => List.replicate 16 0) "ctx" "Pass".toLower ∧
    (∀ k c,
      (Connection.hex_hmac_md5 (fun _ _ => List.replicate 16 0) k c).length = 32 ∧
      ∀ ch ∈ (Connection.hex_hmac_md5 (fun _ _ => List.replicate 16 0) k c).toList,
        ch ∈ hexAlphabet) :=
  claim8_login_fields (fun _ => List.replicate 16 0) (fun _ _ => List.replicate 16 0)
    "ctx" "1234" "Pass" true (fun _ _ => by simp)
    (fun _ _ b hb => by
      have hb0 := List.eq_of_mem_replicate hb
      omega)

/-- C2: with `logged_in` still false, `Connection.get_xml` raises the
"Not logged in" exception, and `Connection.get_student` — which starts by
calling `get_xml` — raises the same exception; neither returns data or
changes state. -/
theorem claim2_not_authenticated (conn : Connection) (download : String)
    (fromstring : String → Except PyErr Xml) (h : conn.logged_in = false) :
    Connection.get_xml conn download =
      .error (.notLoggedIn "Not logged in. Cannot download.") ∧
    Connection.get_student conn download fromstring =
      .error (.notLoggedIn "Not logged in. Cannot download.") := by
  have hx : Connection.get_xml conn download =
      .error (.notLoggedIn "Not logged in. Cannot download.") := by
    simp [Connection.get_xml, h]
  exact ⟨hx, by simp [Connection.get_student, hx]⟩

/-- Witness for C2 on a freshly constructed `Connection`. -/
theorem claim2_not_authenticated_witness :
    Connection.get_xml Connection.new "<d/>" =
      .error (.notLoggedIn "Not logged in. Cannot download.") ∧
    Connection.get_student Connection.new "<d/>" (fun _ => .error .attrFind) =
      .error (.notLoggedIn "Not logged in. Cannot download.") :=
  claim2_not_authenticated Connection.new "<d/>" (fun _ => .error .attrFind) rfl

/-- Counterexample to C9 as stated: when the first `get_xml` call downloads
the empty string, the cache check `if not self.xml_data` sees a falsy value,
so a SECOND call performs another network round trip (third component
`true`) and can return different text — the claim's unconditional
memoization fails. -/
theorem claim9_counterexample :
    Connection.get_xml { Connection.new with logged_in := true } "" =
      .ok ("", { Connection.new with logged_in := true, xml_data := some "" }, true) ∧
    Connection.get_xml
        { Connection.new with logged_in := true, xml_data := some "" } "<rec/>" =
      .ok ("<rec/>",
        { Connection.new with logged_in := true, xml_data := some "<rec/>" }, true) ∧
    ("<rec/>" : String) ≠ "" :=
  ⟨rfl, rfl, by decide⟩

/-- C9 amended: after a `get_xml` call that used the transport and returned
NON-EMPTY text, any further call returns the cached text unchanged with no
transport use, whatever the transport would now serve. -/
theorem claim9_memoization_amended (conn conn2 : Connection) (d1 d2 t : String)
    (h : Connection.get_xml conn d1 = .ok (t, conn2, true)) (ht : t ≠ "") :
    Connection.get_xml conn2 d2 = .ok (t, conn2, false) := by
  have hlog : conn.logged_in = true := by
    by_contra hc
    have hfalse : conn.logged_in = false := by
      cases hcl : conn.logged_in
      · rfl
      · exact absurd hcl hc
    rw [Connection.get_xml, if_pos hfalse] at h
    exact absurd h (by simp)
  rw [Connection.get_xml, if_neg (by simp [hlog])] at h
  rcases hxml : conn.xml_data with _ | s
  · simp only [hxml] at h
    simp only [Except.ok.injEq, Prod.mk.injEq] at h
    obtain ⟨rfl, rfl, -⟩ := h
    rw [Connection.get_xml, if_neg (by simp [hlog])]
    simp [ht]
  · simp only [hxml] at h
    by_cases hs : s = ""
    · rw [if_pos hs] at h
      simp only [Except.ok.injEq, Prod.mk.injEq] at h
      obtain ⟨rfl, rfl, -⟩ := h
      rw [Connection.get_xml, if_neg (by simp [hlog])]
      simp [ht]
    · rw [if_neg hs] at h
      simp only [Except.ok.injEq, Prod.mk.injEq] at h
      obtain ⟨-, -, hfalse⟩ := h
      exact absurd hfalse (by simp)

/-- Witness for C9 amended: a non-empty first download is then served from
the cache. -/
theorem claim9_memoization_amended_witness :
    Connection.get_xml
        { Connection.new with logged_in := true, xml_data := some "<rec/>" } "ignored" =
      .ok ("<rec/>",
        { Connection.new with logged_in := true, xml_data := some "<rec/>" }, false) :=
  claim9_memoization_amended { Connection.new with logged_in := true }
    { Connection.new with logged_in := true, xml_data := some "<rec/>" }
    "<rec/>" "ignored" "<rec/>" rfl (by decide)

/-- Counterexample to C1 as stated: parsing a course whose ONLY assignment
has the placeholder score portion `--` succeeds, the assignment is indeed
absent from the assignment sequence, but its category name "Homework" DOES
appear in the course's category set even though no non-placeholder
assignment shares it — because `Student.load` records the category before
the placeholder check. -/
theorem claim1_counterexample :
    (Student.ofXml docPlaceholder).2 = none ∧
    (Student.ofXml docPlaceholder).1.courses.map (fun c => c.assignments) = [[]] ∧
    (Student.ofXml docPlaceholder).1.courses.map (fun c => c.categories) =
      [[some "Homework"]] := by
  refine ⟨rfl, rfl, rfl⟩

/-- C1 amended: an assignment element whose grade text's score portion
(the text before the final slash) is the placeholder `--` contributes
nothing to the assignment sequence, but its category name IS recorded in
the category set when first seen — the category set reflects all
assignments, placeholder ones included. -/
theorem claim1_placeholder_amended (cats : List (Option String)) (asns : List Assn)
    (e : Xml) (rest : List Xml) (nm cat due : Option String) (gElem : Xml) (g q : String)
    (h1 : e.findText "{ao}Name" = .ok nm)
    (h2 : e.findText "{ao}Category" = .ok cat)
    (h3 : e.findText "{ao}DueDate" = .ok due)
    (h4 : e.find "{ao}Grade" = some gElem)
    (h5 : gElem.text = some g)
    (h6 : matchGrade g = some ("--", q)) :
    Student.loadAssns cats asns (e :: rest) =
      Student.loadAssns (if cat ∈ cats then cats else cats ++ [cat]) asns rest := by
  have hg : e.findText "{ao}Grade" = .ok (some g) := by
    simp [Xml.findText, h4, h5]
  simp [Student.loadAssns, h1, h2, h3, hg, h6]

/-- Witness for C1 amended at the concrete placeholder assignment. -/
theorem claim1_placeholder_amended_witness :
    Student.loadAssns [] [] [assnElem "HW1" "Homework" "1/15/2024" "--/20"] =
      Student.loadAssns
        (if (some "Homework" : Option String) ∈ ([] : List (Option String)) then []
         else [] ++ [some "Homework"]) [] [] :=
  claim1_placeholder_amended [] [] (assnElem "HW1" "Homework" "1/15/2024" "--/20") []
    (some "HW1") (some "Homework") (some "1/15/2024")
    (Xml.elem "{ao}Grade" (some "--/20") []) "--/20" "20"
    rfl rfl rfl rfl rfl (by decide)

/-- Counterexample to C3 as stated: a document missing
`GPA/GradePointAverage` and a document missing `Person/Name/FirstName`
raise the IDENTICAL error value (Python's
`AttributeError: 'NoneType' object has no attribute 'text'`, which carries
no path), so the fatal error does not identify which field/path is
missing. -/
theorem claim3_counterexample :
    (Student.load Student.new docMissingGPA).2 = some PyErr.attrText ∧
    (Student.load Student.new docMissingFirstName).2 = some PyErr.attrText := by
  refine ⟨rfl, rfl⟩

/-- C3 amended: a document missing `GPA/GradePointAverage` (with the person
fields present) makes `Student.load` fail fatally — no model is marked
loaded and the `gpa` field is untouched — but the raised error is the
path-less `AttributeError`, not an error naming the missing path. -/
theorem claim3_missing_field_amended (st : Student) (root stu ar : Xml)
    (fn ln gd : Option String)
    (h1 : root.find "Student" = some stu)
    (h2 : stu.findText "Person/Name/FirstName" = .ok fn)
    (h3 : stu.findText "Person/Name/LastName" = .ok ln)
    (h4 : stu.findText "Person/Gender/GenderCode" = .ok gd)
    (h5 : stu.find "AcademicRecord" = some ar)
    (h6 : ar.find "GPA/GradePointAverage" = none) :
    (Student.load st root).2 = some PyErr.attrText ∧
    (Student.load st root).1.loaded = st.loaded ∧
    (Student.load st root).1.gpa = st.gpa := by
  have hg : ar.findText "GPA/GradePointAverage" = .error .attrText := by
    simp [Xml.findText, h6]
  simp [Student.load, h1, h2, h3, h4, h5, hg]

/-- Witness for C3 amended on the concrete GPA-less document. -/
theorem claim3_missing_field_amended_witness :
    (Student.load Student.new docMissingGPA).2 = some PyErr.attrText ∧
    (Student.load Student.new docMissingGPA).1.loaded = Student.new.loaded ∧
    (Student.load Student.new docMissingGPA).1.gpa = Student.new.gpa :=
  claim3_missing_field_amended Student.new docMissingGPA stuNoGPA arNoGPA
    (some "Johnny") (some "Doe") (some "Male") rfl rfl rfl rfl rfl rfl

/-- Counterexample to C4 as stated: on the GPA-less document the parse
fails, yet the `Student` state is left partially populated — `first_name`
has already been overwritten from `""` to `"Johnny"` by the failed
`load`. -/
theorem claim4_counterexample :
    (Student.load Student.new docMissingGPA).2.isSome = true ∧
    (Student.load Student.new docMissingGPA).1.first_name = some "Johnny" ∧
    Student.new.first_name = some "" := by
  refine ⟨rfl, rfl, rfl⟩

/-- Helper: the course loop never touches the `loaded` flag. -/
theorem loadCourses_loaded (cs : List Xml) : ∀ (st : Student),
    (Student.loadCourses st cs).1.loaded = st.loaded := by
  induction cs with
  | nil => intro st; rfl
  | cons x rest ih =>
    intro st
    unfold Student.loadCourses
    cases hx : Student.loadCourse x with
    | error e => simp only [hx]
    | ok crs =>
      simp only [hx]
      exact ih _

/-- Helper: whenever `Student.load` raises, the `loaded` flag keeps its
prior value (it is only ever set, to `true`, after full success). -/
theorem load_error_loaded (st : Student) (root : Xml) :
    ∀ p : Student × Option PyErr, Student.load st root = p →
      p.2.isSome = true → p.1.loaded = st.loaded := by
  intro p hp hs
  unfold Student.load at hp
  split at hp
  · subst hp; rfl
  · split at hp
    · subst hp; rfl
    · split at hp
      · subst hp; rfl
      · split at hp
        · subst hp; rfl
        · split at hp
          · subst hp; rfl
          · split at hp
            · subst hp; rfl
            · split at hp
              · rename_i st5 e heq
                subst hp
                have hl := congrArg (fun q : Student × Option PyErr => q.1.loaded) heq
                simp only [] at hl
                rw [loadCourses_loaded] at hl
                exact hl.symm
              · subst hp
                simp at hs

/-- C4 amended: parsing is NOT transactional — on failure the fields
assigned before the failure point keep their new values (see the
counterexample) — but no model is ever marked complete: whenever
`Student.load` raises, the `loaded` flag keeps its prior value, so a fresh
parse that fails leaves `loaded = false` and the constructor path yields no
usable model. -/
theorem claim4_all_or_nothing_amended (st : Student) (root : Xml)
    (h : (Student.load st root).2.isSome = true) :
    (Student.load st root).1.loaded = st.loaded :=
  load_error_loaded st root (Student.load st root) rfl h

/-- Witness for C4 amended on the concrete GPA-less document. -/
theorem claim4_all_or_nothing_amended_witness :
    (Student.load Student.new docMissingGPA).1.loaded = Student.new.loaded :=
  claim4_all_or_nothing_amended Student.new docMissingGPA (by decide)

/-- Helper: head characterisation of the lexicographic comparison. -/
theorem charListLe_cons (x y : Char) (xs ys : List Char) :
    charListLe (x :: xs) (y :: ys) = true ↔
      (x.toNat < y.toNat ∨ (x.toNat = y.toNat ∧ charListLe xs ys = true)) := by
  simp only [charListLe]
  split_ifs with h1 h2
  · simp [h1]
  · simp only [Bool.false_eq_true, false_iff]
    rintro (h | ⟨h, -⟩) <;> omega
  · have hxy : x.toNat = y.toNat := by omega
    simp [hxy]

/-- Helper: the lexicographic comparison is total. -/
theorem charListLe_total : ∀ (a b : List Char),
    charListLe a b = true ∨ charListLe b a = true := by
  intro a
  induction a with
  | nil => intro b; left; rfl
  | cons x xs ih =>
    intro b
    cases b with
    | nil => right; rfl
    | cons y ys =>
      rcases Nat.lt_trichotomy x.toNat y.toNat with h | h | h
      · left; rw [charListLe_cons]; exact Or.inl h
      · rcases ih ys with hxy | hyx
        · left; rw [charListLe_cons]; exact Or.inr ⟨h, hxy⟩
        · right; rw [charListLe_cons]; exact Or.inr ⟨h.symm, hyx⟩
      · right; rw [charListLe_cons]; exact Or.inl h

/-- Helper: the lexicographic comparison is transitive. -/
theorem charListLe_trans : ∀ (a b c : List Char),
    charListLe a b = true → charListLe b c = true → charListLe a c = true := by
  intro a
  induction a with
  | nil => intro b c _ _; rfl
  | cons x xs ih =>
    intro b c hab hbc
    cases b with
    | nil => simp [charListLe] at hab
    | cons y ys =>
      cases c with
      | nil => simp [charListLe] at hbc
      | cons z zs =>
        rw [charListLe_cons] at hab hbc ⊢
        rcases hab with h1 | ⟨h1, h1r⟩ <;> rcases hbc with h2 | ⟨h2, h2r⟩
        · exact Or.inl (by omega)
        · exact Or.inl (by omega)
        · exact Or.inl (by omega)
        · exact Or.inr ⟨by omega, ih ys zs h1r h2r⟩

/-- Helper: totality lifted to optional sort keys. -/
theorem optStrLe_total (a b : Option String) :
    optStrLe a b = true ∨ optStrLe b a = true :=
  match a, b with
  | none, _ => Or.inl rfl
  | some _, none => Or.inr rfl
  | some x, some y => charListLe_total x.toList y.toList

/-- Helper: transitivity lifted to optional sort keys. -/
theorem optStrLe_trans (a b c : Option String)
    (h1 : optStrLe a b = true) (h2 : optStrLe b c = true) :
    optStrLe a c = true := by
  match a, b, c with
  | none, _, _ => rfl
  | some x, none, _ => simp [optStrLe] at h1
  | some x, some y, none => simp [optStrLe] at h2
  | some x, some y, some z => exact charListLe_trans x.toList y.toList z.toList h1 h2

/-- Helper: totality of the due-date comparison. -/
theorem dueLe_total (a b : Assn) : (dueLe a b || dueLe b a) = true := by
  rcases optStrLe_total a.due_date b.due_date with h | h <;> simp [dueLe, h]

/-- Helper: transitivity of the due-date comparison. -/
theorem dueLe_trans (a b c : Assn)
    (h1 : dueLe a b = true) (h2 : dueLe b c = true) : dueLe a c = true :=
  optStrLe_trans _ _ _ h1 h2

/-- Helper: one direction of totality. -/
theorem dueLe_of_not (a b : Assn) (h : ¬ dueLe b a = true) : dueLe a b = true := by
  have htot := dueLe_total a b
  cases hab : dueLe a b with
  | true => rfl
  | false =>
    rw [hab] at htot
    simp at htot
    exact absurd htot h

/-- Helper: `insertSorted` only adds the new element. -/
theorem insertSorted_mem (a : Assn) : ∀ (l : List Assn) (y : Assn),
    y ∈ insertSorted a l → y = a ∨ y ∈ l := by
  intro l
  induction l with
  | nil =>
    intro y hy
    simp [insertSorted] at hy
    exact Or.inl hy
  | cons b bs ih =>
    intro y hy
    unfold insertSorted at hy
    by_cases hba : dueLe b a = true
    · rw [if_pos hba] at hy
      rcases List.mem_cons.mp hy with rfl | hy2
      · exact Or.inr (List.mem_cons_self _ _)
      · rcases ih y hy2 with h | h
        · exact Or.inl h
        · exact Or.inr (List.mem_cons_of_mem _ h)
    · rw [if_neg hba] at hy
      rcases List.mem_cons.mp hy with rfl | hy2
      · exact Or.inl rfl
      · exact Or.inr hy2

/-- Helper: `insertSorted` preserves sortedness. -/
theorem insertSorted_pairwise (a : Assn) : ∀ (l : List Assn),
    List.Pairwise (fun x y => dueLe x y = true) l →
    List.Pairwise (fun x y => dueLe x y = true) (insertSorted a l) := by
  intro l
  induction l with
  | nil => intro _; simp [insertSorted]
  | cons b bs ih =>
    intro h
    rcases List.pairwise_cons.mp h with ⟨hb, hbs⟩
    unfold insertSorted
    by_cases hba : dueLe b a = true
    · rw [if_pos hba]
      refine List.pairwise_cons.mpr ⟨?_, ih hbs⟩
      intro y hy
      rcases insertSorted_mem a bs y hy with rfl | hy2
      · exact hba
      · exact hb y hy2
    · rw [if_neg hba]
      refine List.pairwise_cons.mpr ⟨?_, h⟩
      intro y hy
      rcases List.mem_cons.mp hy with rfl | hy2
      · exact dueLe_of_not a y hba
      · exact dueLe_trans a b y (dueLe_of_not a b hba) (hb y hy2)

/-- Helper: the fold underlying `sortAssns` keeps the accumulator sorted. -/
theorem sortAssns_fold_pairwise : ∀ (l acc : List Assn),
    List.Pairwise (fun x y => dueLe x y = true) acc →
    List.Pairwise (fun x y => dueLe x y = true)
      (l.foldl (fun acc a => insertSorted a acc) acc) := by
  intro l
  induction l with
  | nil => intro acc h; exact h
  | cons a rest ih =>
    intro acc h
    exact ih (insertSorted a acc) (insertSorted_pairwise a acc h)

/-- Helper: `sortAssns` output is sorted under the due-date comparison. -/
theorem sortAssns_pairwise (l : List Assn) :
    List.Pairwise (fun x y => dueLe x y = true) (sortAssns l) :=
  sortAssns_fold_pairwise l [] List.Pairwise.nil

/-- Helper: every course produced by the per-course parser has its
assignment list sorted. -/
theorem loadCourse_sorted (x : Xml) (c : Course)
    (h : Student.loadCourse x = .ok c) :
    List.Pairwise (fun a b => dueLe a b = true) c.assignments := by
  unfold Student.loadCourse at h
  split at h
  · exact Except.noConfusion h
  · split at h
    · exact Except.noConfusion h
    · split at h
      · exact Except.noConfusion h
      · split at h
        · exact Except.noConfusion h
        · split at h
          · exact Except.noConfusion h
          · split at h
            · exact Except.noConfusion h
            · split at h
              · exact Except.noConfusion h
              · injection h with h
                subst h
                exact sortAssns_pairwise _

/-- Helper: any course in the state after the course loop was either
already there or came from a successful `loadCourse`. -/
theorem loadCourses_mem : ∀ (cs : List Xml) (st : Student) (c : Course),
    c ∈ (Student.loadCourses st cs).1.courses →
    c ∈ st.courses ∨ ∃ x, Student.loadCourse x = .ok c := by
  intro cs
  induction cs with
  | nil => intro st c h; exact Or.inl h
  | cons x rest ih =>
    intro st c h
    unfold Student.loadCourses at h
    cases hx : Student.loadCourse x with
    | error e =>
      simp only [hx] at h
      exact Or.inl h
    | ok crs =>
      simp only [hx] at h
      rcases ih _ c h with hmem | hok
      · have hmem2 : c ∈ st.courses ++ [crs] := hmem
        rcases List.mem_append.mp hmem2 with h1 | h2
        · exact Or.inl h1
        · simp only [List.mem_singleton] at h2
          exact Or.inr ⟨x, by rw [hx, h2]⟩
      · exact Or.inr hok

/-- Helper: any course in the state after `Student.load` was either in the
prior state or produced by a successful `loadCourse`. -/
theorem load_mem_courses (st : Student) (root : Xml) :
    ∀ p : Student × Option PyErr, Student.load st root = p →
      ∀ c ∈ p.1.courses, c ∈ st.courses ∨ ∃ x, Student.loadCourse x = .ok c := by
  intro p hp c hc
  unfold Student.load at hp
  split at hp
  · subst hp; exact Or.inl hc
  · split at hp
    · subst hp; exact Or.inl hc
    · split at hp
      · subst hp; exact Or.inl hc
      · split at hp
        · subst hp; exact Or.inl hc
        · split at hp
          · subst hp; exact Or.inl hc
          · split at hp
            · subst hp; exact Or.inl hc
            · split at hp
              · rename_i st5 e heq
                subst hp
                have hset := congrArg (fun q : Student × Option PyErr => q.1.courses) heq
                simp only [] at hset
                have hc2 : c ∈ st5.courses := hc
                rw [← hset] at hc2
                rcases loadCourses_mem _ _ c hc2 with hmem | hok
                · exact Or.inl hmem
                · exact Or.inr hok
              · rename_i st5 heq
                subst hp
                have hset := congrArg (fun q : Student × Option PyErr => q.1.courses) heq
                simp only [] at hset
                have hc2 : c ∈ st5.courses := hc
                rw [← hset] at hc2
                rcases loadCourses_mem _ _ c hc2 with hmem | hok
                · exact Or.inl hmem
                · exact Or.inr hok

/-- C6: every course built by parsing a document from scratch has its
assignment sequence sorted ascending by the raw due-date text under
byte-wise lexicographic order; concretely, for due dates `9/1/2023`,
`10/15/2023`, `2/3/2024` the stored order places `10/15/2023` first, before
`2/3/2024`, and both before `9/1/2023` (the known non-chronological
quirk). -/
theorem claim6_sorted_lex (root : Xml) (c : Course)
    (h : c ∈ (Student.ofXml root).1.courses) :
    List.Pairwise (fun a b => dueLe a b = true) c.assignments ∧
    (Student.ofXml docDates).1.courses.map
        (fun cr => cr.assignments.map (fun a => a.due_date)) =
      [[some "10/15/2023", some "2/3/2024", some "9/1/2023"]] := by
  constructor
  · rcases load_mem_courses Student.new root (Student.ofXml root) rfl c h with hmem | ⟨x, hx⟩
    · simp [Student.new] at hmem
    · exact loadCourse_sorted x c hx
  · rfl

/-- Witness for C6 at the concrete parsed course of `docPlaceholder`. -/
theorem claim6_sorted_lex_witness :
    List.Pairwise (fun a b => dueLe a b = true) placeholderCourse.assignments ∧
    (Student.ofXml docDates).1.courses.map
        (fun cr => cr.assignments.map (fun a => a.due_date)) =
      [[some "10/15/2023", some "2/3/2024", some "9/1/2023"]] :=
  claim6_sorted_lex docPlaceholder placeholderCourse (by decide)

/-- Helper: the for/else scan returns `true` exactly when some assignment
of the list is in the date window (given that the scan completed without
raising). -/
theorem assnInProgress_iff (cutoff today : PDate) :
    ∀ (l : List Assn) (b : Bool),
      Student.assnInProgress cutoff today l = .ok b →
      (b = true ↔ ∃ a ∈ l, assnInRange cutoff today a) := by
  intro l
  induction l with
  | nil =>
    intro b h
    simp only [Student.assnInProgress] at h
    injection h with h
    subst h
    simp
  | cons a rest ih =>
    intro b h
    unfold Student.assnInProgress at h
    cases hd : a.due_date with
    | none => simp only [hd] at h; exact Except.noConfusion h
    | some s =>
      simp only [hd] at h
      cases hp : parseMDY s with
      | none => simp only [hp] at h; exact Except.noConfusion h
      | some t =>
        obtain ⟨m, d, y⟩ := t
        simp only [hp] at h
        by_cases hv : validDate y m d = true
        · rw [if_pos hv] at h
          by_cases hr : (PDate.le cutoff ⟨y, m, d⟩ && PDate.le ⟨y, m, d⟩ today) = true
          · rw [if_pos hr] at h
            injection h with h
            subst h
            simp only [true_iff]
            exact ⟨a, List.mem_cons_self a rest, s, m, d, y, hd, hp, hr⟩
          · rw [if_neg hr] at h
            rw [ih b h]
            constructor
            · rintro ⟨a2, ha2, hin⟩
              exact ⟨a2, List.mem_cons_of_mem _ ha2, hin⟩
            · rintro ⟨a2, ha2, hin⟩
              rcases List.mem_cons.mp ha2 with rfl | h2
              · exfalso
                obtain ⟨s2, m2, d2, y2, hd2, hp2, hr2⟩ := hin
                rw [hd] at hd2
                injection hd2 with hd2
                subst hd2
                rw [hp] at hp2
                injection hp2 with hp2
                simp only [Prod.mk.injEq] at hp2
                obtain ⟨rfl, rfl, rfl⟩ := hp2
                exact hr hr2
              · exact ⟨a2, h2, hin⟩
        · rw [if_neg hv] at h
          exact Except.noConfusion h

/-- Helper: per-course relation established by the filter loop on
success. -/
theorem filterCoursesList_spec (cutoff today : PDate) :
    ∀ (cs cs' : List Course),
      Student.filterCoursesList cutoff today cs = .ok cs' →
      List.Forall₂ (fun c c' : Course =>
        c'.assignments = c.assignments ∧
        c'.categories = c.categories ∧
        (c'.in_progress = true ↔ ∃ a ∈ c.assignments, assnInRange cutoff today a))
        cs cs' := by
  intro cs
  induction cs with
  | nil =>
    intro cs' h
    simp only [Student.filterCoursesList] at h
    injection h with h
    subst h
    exact List.Forall₂.nil
  | cons c rest ih =>
    intro cs' h
    unfold Student.filterCoursesList at h
    cases hb : Student.assnInProgress cutoff today c.assignments with
    | error e => simp only [hb] at h; exact Except.noConfusion h
    | ok b =>
      simp only [hb] at h
      cases hrest : Student.filterCoursesList cutoff today rest with
      | error e => simp only [hrest] at h; exact Except.noConfusion h
      | ok cs2 =>
        simp only [hrest] at h
        injection h with h
        subst h
        refine List.Forall₂.cons ⟨rfl, rfl, ?_⟩ (ih cs2 hrest)
        exact assnInProgress_iff cutoff today c.assignments b hb

/-- Helper: the filter loop is idempotent — re-filtering an already
filtered course list reproduces it (the scan never reads `in_progress`). -/
theorem filterCoursesList_idem (cutoff today : PDate) :
    ∀ (cs cs' : List Course),
      Student.filterCoursesList cutoff today cs = .ok cs' →
      Student.filterCoursesList cutoff today cs' = .ok cs' := by
  intro cs
  induction cs with
  | nil =>
    intro cs' h
    simp only [Student.filterCoursesList] at h
    injection h with h
    subst h
    rfl
  | cons c rest ih =>
    intro cs' h
    unfold Student.filterCoursesList at h
    cases hb : Student.assnInProgress cutoff today c.assignments with
    | error e => simp only [hb] at h; exact Except.noConfusion h
    | ok b =>
      simp only [hb] at h
      cases hrest : Student.filterCoursesList cutoff today rest with
      | error e => simp only [hrest] at h; exact Except.noConfusion h
      | ok cs2 =>
        simp only [hrest] at h
        injection h with h
        subst h
        unfold Student.filterCoursesList
        simp only [hb, ih cs2 hrest]

/-- C5: whenever `filter_courses` completes without raising (every stored
due date parses as `M/D/Y` into a valid date), each course's `in_progress`
flag is set to `true` IF AND ONLY IF at least one of its assignments has a
due date in the inclusive window `[cutoff, today]`; a course with no
assignments, or none in range, ends up `false`; the other course data is
unchanged; and re-running the filter with the same inputs on the same day
reproduces the same state. -/
theorem claim5_filter_courses (st st' : Student) (cutoff today : PDate)
    (h : Student.filter_courses st cutoff today = .ok st') :
    List.Forall₂ (fun c c' : Course =>
      c'.assignments = c.assignments ∧
      c'.categories = c.categories ∧
      (c'.in_progress = true ↔ ∃ a ∈ c.assignments, assnInRange cutoff today a))
      st.courses st'.courses ∧
    Student.filter_courses st' cutoff today = .ok st' := by
  unfold Student.filter_courses at h
  cases hcs : Student.filterCoursesList cutoff today st.courses with
  | error e => simp only [hcs] at h; exact Except.noConfusion h
  | ok cs =>
    simp only [hcs] at h
    injection h with h
    subst h
    constructor
    · exact filterCoursesList_spec cutoff today st.courses cs hcs
    · unfold Student.filter_courses
      simp only [filterCoursesList_idem cutoff today st.courses cs hcs]

/-- Witness for C5 at the spec's §8 example: cutoff `2024-01-01`, today
`2024-03-01`; the course with an assignment due `1/15/2024` comes out
in-progress, the `12/1/2023` course and the assignment-less course do
not. -/
theorem claim5_filter_courses_witness :
    List.Forall₂ (fun c c' : Course =>
      c'.assignments = c.assignments ∧
      c'.categories = c.categories ∧
      (c'.in_progress = true ↔
        ∃ a ∈ c.assignments, assnInRange ⟨2024, 1, 1⟩ ⟨2024, 3, 1⟩ a))
      sampleStudent.courses sampleStudentFiltered.courses ∧
    Student.filter_courses sampleStudentFiltered ⟨2024, 1, 1⟩ ⟨2024, 3, 1⟩ =
      .ok sampleStudentFiltered :=
  claim5_filter_courses sampleStudent sampleStudentFiltered ⟨2024, 1, 1⟩ ⟨2024, 3, 1⟩ rfl
